import Mathlib

/-
Verification of the compiler-extensions subsystem (src/compiler/extensions.ts):
discovery, loading, validation and kind-grouping of pluggable lint extensions,
plus the per-extension profiling recorder.

The embedding is shallow: the dynamic JavaScript values that flow through the
classifier are modelled by a small inductive of value shapes carrying exactly
the observations the code makes (truthiness, typeof, the "extension-kind"
property); mutable state (the shared diagnostics array, the memoized
collection map, the host invocations) is threaded explicitly.  Helper
functions that live in the repository but outside src/ (core.ts: map, filter,
getKeys, reduceProperties, groupBy, createCompilerDiagnostic, Debug.assert;
the module resolver) are modelled from the spec and marked as such.
-/

namespace ts

/-- The possible results of the JavaScript typeof operator, as observed by the
classifier. -/
inductive JSType where
  | undefinedT
  | objectT
  | booleanT
  | numberT
  | stringT
  | functionT
  | symbolT
deriving DecidableEq, Repr

/-- Rendering of a JSType as the string typeof produces. -/
def typeofString : JSType → String
  | JSType.undefinedT => "undefined"
  | JSType.objectT => "object"
  | JSType.booleanT => "boolean"
  | JSType.numberT => "number"
  | JSType.stringT => "string"
  | JSType.functionT => "function"
  | JSType.symbolT => "symbol"

/-- The "extension-kind" property of a loaded export: absent, a string value,
or present with a non-string value (the classifier only acts on string tags). -/
inductive TagProp where
  | absent
  | strTag (s : String)
  | nonStringTag (t : JSType)
deriving DecidableEq, Repr

/-- Shallow model of a JavaScript value appearing as a module export.  It
records exactly what the classifier observes: the value shape (hence typeof
and truthiness) and the "extension-kind" property for values that can carry
one (objects and functions; property reads on primitives yield undefined). -/
inductive JSExport where
  | jsUndefined
  | jsNull
  | jsBool (b : Bool)
  | jsNumber (n : Int)
  | jsString (s : String)
  | jsObject (tag : TagProp)
  | jsFunction (tag : TagProp)
deriving DecidableEq, Repr

/-- The result of typeof on a modelled export value. -/
def JSExport.jsTypeof : JSExport → JSType
  | JSExport.jsUndefined => JSType.undefinedT
  | JSExport.jsNull => JSType.objectT
  | JSExport.jsBool _ => JSType.booleanT
  | JSExport.jsNumber _ => JSType.numberT
  | JSExport.jsString _ => JSType.stringT
  | JSExport.jsObject _ => JSType.objectT
  | JSExport.jsFunction _ => JSType.functionT

/-- JavaScript falsiness of a modelled export value. -/
def JSExport.falsy : JSExport → Bool
  | JSExport.jsUndefined => true
  | JSExport.jsNull => true
  | JSExport.jsBool b => !b
  | JSExport.jsNumber n => n == 0
  | JSExport.jsString s => s == ""
  | JSExport.jsObject _ => false
  | JSExport.jsFunction _ => false

/-- Reading the "extension-kind" property of a modelled export value.
Primitives have no such own property. -/
def JSExport.extensionKindProp : JSExport → TagProp
  | JSExport.jsObject tag => tag
  | JSExport.jsFunction tag => tag
  | _ => TagProp.absent

/-- The two well-known extension kinds (namespace ExtensionKind in the
source). -/
def ExtensionKind.SemanticLint : String := "semantic-lint"

/-- The syntactic-lint kind constant. -/
def ExtensionKind.SyntacticLint : String := "syntactic-lint"

/-- The object the ExtensionKind namespace compiles to maps the constant
NAMES ("SemanticLint", "SyntacticLint") to their string values; indexing it by
any other key, in particular by one of the kind VALUES themselves, yields
undefined (modelled as none).  The source indexes this object with the
annotated kind value on line 177. -/
def extensionKindNamespaceIndex (key : String) : Option String :=
  if key = "SemanticLint" then some ExtensionKind.SemanticLint
  else if key = "SyntacticLint" then some ExtensionKind.SyntacticLint
  else none

/-- The two diagnostic messages this file can emit, named after the entries of
the diagnostic catalog referenced by the source. -/
inductive DiagnosticMessage where
  | extensionLoadingFailedWithError0
  | extension0ExportedMember1HasExtensionKind2ButWasType3WhenType4WasExpected
deriving DecidableEq, Repr

/-- Modelled from the spec: a Diagnostic is a structured message with
positional arguments (the catalog and rendering live outside src/).  An
argument of none models passing the JavaScript value undefined in that
position. -/
structure Diagnostic where
  message : DiagnosticMessage
  args : List (Option String)
deriving DecidableEq, Repr

/-- Modelled from the spec: createCompilerDiagnostic (core.ts, not under
src/) builds a diagnostic from a catalog message and its positional
arguments. -/
def createCompilerDiagnostic (message : DiagnosticMessage)
    (args : List (Option String)) : Diagnostic :=
  ⟨message, args⟩

/-- Model of a JavaScript args value from the configuration, as a JSON-like
record; the object {x:1} is [("x", 1)]. -/
abbrev JSArgs := List (String × Int)

/-- A per-task timing record (interface ProfileData). -/
structure ProfileData where
  task : String
  start : Int
  length : Int
deriving DecidableEq, Repr

/-- The profiles mapping of a descriptor: a JavaScript object map from task
name to record, as an association list in insertion order. -/
abbrev ProfilesMap := List (String × ProfileData)

/-- JavaScript property assignment on an object map: overwrite in place when
the key exists, append otherwise. -/
def mapSet (m : ProfilesMap) (k : String) (v : ProfileData) : ProfilesMap :=
  match m with
  | [] => [(k, v)]
  | (k₂, v₂) :: rest => if k₂ = k then (k, v) :: rest else (k₂, v₂) :: mapSet rest k v

/-- An extension descriptor (interface ExtensionBase, with the two
kind-specific extra fields ctor and __extension of the SyntacticLint /
SemanticLint / unknown-kind variants folded in as optional fields; each is
populated exactly as in the source).  profiles = none models the field being
absent (undefined). -/
structure ExtensionBase where
  name : String
  args : Option JSArgs
  kind : String
  profiles : Option ProfilesMap
  ctor : Option JSExport
  __extension : Option JSExport
deriving DecidableEq, Repr

/-- startExtensionProfile: lazily allocate the profiles map when it is absent,
then insert/overwrite the record for the task with start = now and the
in-flight sentinel length -1.  The current time is passed explicitly. -/
def startExtensionProfile (ext : ExtensionBase) (task : String) (now : Int) :
    ExtensionBase :=
  let ps : ProfilesMap := match ext.profiles with
    | none => []
    | some ps => ps
  ⟨ext.name, ext.args, ext.kind, some (mapSet ps task ⟨task, now, -1⟩),
   ext.ctor, ext.__extension⟩

/-- completeExtensionProfile: requires the profiles map to exist and to
contain a record for the task; either absence fails a Debug.assert.
Debug.assert lives in core.ts, not under src/; modelled from the spec as an
Except.error carrying the assertion message, which aborts the calling
operation (the error propagates) rather than returning a recoverable value.
On success the record keeps its task and start and gets
length = endTime - start. -/
def completeExtensionProfile (ext : ExtensionBase) (task : String)
    (endTime : Int) : Except String ExtensionBase :=
  match ext.profiles with
  | none => Except.error "Completed profile, but extension has no started profiles."
  | some ps =>
    match ps.lookup task with
    | none => Except.error "Completed profile did not have a corresponding start."
    | some pd =>
      Except.ok ⟨ext.name, ext.args, ext.kind,
        some (mapSet ps task ⟨pd.task, pd.start, endTime - pd.start⟩),
        ext.ctor, ext.__extension⟩

/-- The exported value of a loaded module, as enumerated by a for-in loop:
own properties in enumeration order (including a possible "default" key). -/
abbrev ModuleExports := List (String × JSExport)

/-- Shallow model of a thrown JavaScript error value: its name and message
(String(error) interpolates as name plus ": " plus message, the
Error.prototype.toString behavior) and its optional stack property. -/
structure JSError where
  name : String
  message : String
  stack : Option String
deriving DecidableEq, Repr

/-- String(error) for a modelled error value. -/
def JSError.toStr (e : JSError) : String :=
  if e.message = "" then e.name else e.name ++ ": " ++ e.message

/-- A new Error(message) constructed inside the loader.  The stack of a fresh
Error object is engine dependent and no claim depends on it; modelled as
absent. -/
def jsNewError (message : String) : JSError :=
  ⟨"Error", message, none⟩

/-- The outcome of invoking the host dynamic-load capability: a returned
value (none models a falsy return such as undefined) or a thrown error. -/
inductive LoadOutcome where
  | ok (value : Option ModuleExports)
  | thrown (e : JSError)
deriving DecidableEq, Repr

/-- The host collaborator (interface ExtensionHost).  getCurrentDirectory
models the optional capability together with the directory it reports;
loadExtension the optional dynamic-load capability.  resolveModule is
modelled from the spec: resolveModuleName is an external collaborator (the
module-name resolution algorithm is out of scope), a pure oracle from
(name, containing file) to the resolved file name, or none on failure. -/
structure ExtensionHost where
  getCurrentDirectory : Option String
  loadExtension : Option (String → LoadOutcome)
  resolveModule : String → String → Option String

/-- Modelled from the spec: combinePaths (core.ts, not under src/) joins the
current directory with the synthetic configuration-file name. -/
def combinePaths (path file : String) : String :=
  if path = "" then file else path ++ "/" ++ file

/-- The current directory used for resolution:
host.getCurrentDirectory ? host.getCurrentDirectory() : "". -/
def currentDirectoryOf (host : ExtensionHost) : String :=
  match host.getCurrentDirectory with
  | some d => d
  | none => ""

/-- The configured extensions setting (options.extensions): an ordered
sequence of names, or a mapping from name to an arguments value. -/
inductive ExtensionsConfig where
  | names (l : List String)
  | mapping (m : List (String × JSArgs))
deriving DecidableEq, Repr

/-- The configured names: the array itself, or getKeys of the mapping.
getKeys (core.ts, not under src/) is modelled from the spec: the mapping keys
in insertion order. -/
def extensionNames : ExtensionsConfig → List String
  | ExtensionsConfig.names l => l
  | ExtensionsConfig.mapping m => m.map Prod.fst

/-- The args for a descriptor of the named module:
extensionNames === extOptions (that is, the setting was an array) gives
undefined, otherwise the mapping value looked up by name. -/
def extensionArgs : ExtensionsConfig → String → Option JSArgs
  | ExtensionsConfig.names _, _ => none
  | ExtensionsConfig.mapping m, n => m.lookup n

/-- The per-name record produced by the load phase. -/
structure LoadResult where
  name : String
  result : Option ModuleExports
  error : Option JSError
deriving DecidableEq, Repr

/-- The text passed as the single argument of the loading-failure diagnostic:
the template string with the stack trace appended when error.stack is truthy,
otherwise the error value itself (which the diagnostic renderer
stringifies). -/
def loadErrorText (e : JSError) : String :=
  match e.stack with
  | some st => e.toStr ++ "\n                    Stack trace:\n                    " ++ st
  | none => e.toStr

/-- One iteration of the load phase (source lines 124-153) for one configured
name: resolve, invoke the host loader inside try/catch, and degrade any error
to one diagnostic.  Returns the per-name record, the diagnostics pushed, and
the loadExtension invocations made (by resolved file name).  The measured
load time is dead local state in the source and affects nothing observable,
so it is not modelled. -/
def loadOneExtension (host : ExtensionHost) (currentDirectory : String)
    (name : String) : LoadResult × List Diagnostic × List String :=
  let step : Option ModuleExports × Option JSError × List String :=
    match host.loadExtension with
    | some loadFn =>
      match host.resolveModule name (combinePaths currentDirectory "tsconfig.json") with
      | some resolvedFileName =>
        match loadFn resolvedFileName with
        | LoadOutcome.ok value => (value, none, [resolvedFileName])
        | LoadOutcome.thrown e => (none, some e, [resolvedFileName])
      | none =>
        (none, some (jsNewError ("Host could not locate extension \x27" ++ name ++ "\x27.")), [])
    | none => (none, some (jsNewError "Extension loading not implemented in host!"), [])
  match step with
  | (result, error, calls) =>
    let diags : List Diagnostic :=
      match error with
      | some e => [createCompilerDiagnostic DiagnosticMessage.extensionLoadingFailedWithError0
          [some (loadErrorText e)]]
      | none => []
    (⟨name, result, error⟩, diags, calls)

/-- The reducer callback of the classifier (source lines 158-194), one
export property at a time.  The pair acc models (aggregate, the closed-over
mutable diagnostics array); the first component of the return is none exactly
where the source callback returns undefined (a skipped falsy export, or a
known-kind export that failed the constructibility check after pushing its
diagnostic). -/
def classifierReducer (extOptions : ExtensionsConfig) (resName : String)
    (acc : List ExtensionBase × List Diagnostic) (potentialExtension : JSExport)
    (key : String) : Option (List ExtensionBase) × List Diagnostic :=
  let aggregate := acc.1
  let diagnostics := acc.2
  if potentialExtension.falsy then
    (none, diagnostics)
  else
    match potentialExtension.extensionKindProp with
    | TagProp.strTag annotatedKind =>
      let ext : ExtensionBase :=
        ⟨if key ≠ "default" then resName ++ "[" ++ key ++ "]" else resName,
         extensionArgs extOptions resName, annotatedKind, none, none, none⟩
      if annotatedKind = ExtensionKind.SemanticLint
          ∨ annotatedKind = ExtensionKind.SyntacticLint then
        if potentialExtension.jsTypeof ≠ JSType.functionT then
          (none, diagnostics ++ [createCompilerDiagnostic
            DiagnosticMessage.extension0ExportedMember1HasExtensionKind2ButWasType3WhenType4WasExpected
            [some resName, some key, extensionKindNamespaceIndex annotatedKind,
             some (typeofString potentialExtension.jsTypeof), some "function"]])
        else
          (some (aggregate ++ [⟨ext.name, ext.args, ext.kind, ext.profiles,
            some potentialExtension, ext.__extension⟩]), diagnostics)
      else
        (some (aggregate ++ [⟨ext.name, ext.args, ext.kind, ext.profiles,
          ext.ctor, some potentialExtension⟩]), diagnostics)
    | _ => (some aggregate, diagnostics)

/-- One iteration of the spec-modelled reduceProperties: thread the callback
result as the new aggregate; a callback that returns no aggregate (JS
undefined) leaves the previous one in place, as required by the spec
(classification of the remaining exports continues unaffected). -/
def reduceStep
    (callback : (List ExtensionBase × List Diagnostic) → JSExport → String →
      Option (List ExtensionBase) × List Diagnostic)
    (acc : List ExtensionBase × List Diagnostic) (kv : String × JSExport) :
    List ExtensionBase × List Diagnostic :=
  match callback acc kv.2 kv.1 with
  | (some next, ds) => (next, ds)
  | (none, ds) => (acc.1, ds)

/-- Modelled from the spec: reduceProperties (core.ts, not under src/)
iterates the own properties of the export object in enumeration order,
threading an aggregate through the callback; per the spec, a skipped property
leaves the aggregate unchanged and classification continues with the
remaining properties.  The extra list threads the closed-over mutable
diagnostics array. -/
def reduceProperties (m : ModuleExports)
    (callback : (List ExtensionBase × List Diagnostic) → JSExport → String →
      Option (List ExtensionBase) × List Diagnostic)
    (initial : List ExtensionBase) (diagnostics : List Diagnostic) :
    List ExtensionBase × List Diagnostic :=
  m.foldl (reduceStep callback) (initial, diagnostics)

/-- The mapper over successful load results (source lines 156-199): classify
a truthy export object with reduceProperties starting from an empty
aggregate, and contribute an empty list for a falsy result. -/
def prepareExtensionObject (extOptions : ExtensionsConfig) (res : LoadResult)
    (diagnostics : List Diagnostic) : List ExtensionBase × List Diagnostic :=
  match res.result with
  | some exports => reduceProperties exports (classifierReducer extOptions res.name) [] diagnostics
  | none => ([], diagnostics)

/-- The grouped output: kind tag to ordered descriptor list, keys in first
occurrence order. -/
abbrev ExtensionCollectionMap := List (String × List ExtensionBase)

/-- Append a descriptor to its kind group, creating the group at the end on
first occurrence. -/
def addToGroup (groups : ExtensionCollectionMap) (k : String)
    (d : ExtensionBase) : ExtensionCollectionMap :=
  match groups with
  | [] => [(k, [d])]
  | (k₂, ds) :: rest =>
    if k₂ = k then (k₂, ds ++ [d]) :: rest else (k₂, ds) :: addToGroup rest k d

/-- Modelled from the spec: groupBy (core.ts, not under src/) groups the
flattened descriptor sequence by kind, with group membership order equal to
insertion order; together with the trailing "or else empty object" this
always yields a (possibly empty) map. -/
def groupBy (l : List ExtensionBase) : ExtensionCollectionMap :=
  l.foldl (fun gs d => addToGroup gs d.kind d) []

/-- The load phase: the source maps over the configured names with the
closed-over diagnostics array; modelled as a fold accumulating the per-name
records, the diagnostics pushed, and the loadExtension invocations made. -/
def runLoadPhase (host : ExtensionHost) (currentDirectory : String)
    (names : List String) : List LoadResult × List Diagnostic × List String :=
  names.foldl
    (fun acc name =>
      let r := loadOneExtension host currentDirectory name
      (acc.1 ++ [r.1], acc.2.1 ++ r.2.1, acc.2.2 ++ r.2.2))
    ([], [], [])

/-- collectCompilerExtensions (source lines 120-201): load every configured
name, keep the results without error, classify each, flatten and group by
kind.  Returns the collection map, the diagnostics accumulated during the
pass, and the loadExtension invocations made. -/
def collectCompilerExtensions (extOptions : ExtensionsConfig)
    (host : ExtensionHost) : ExtensionCollectionMap × List Diagnostic × List String :=
  let names := extensionNames extOptions
  let currentDirectory := currentDirectoryOf host
  match runLoadPhase host currentDirectory names with
  | (extensionLoadResults, diags₁, calls) =>
    let successfulExtensionLoadResults :=
      extensionLoadResults.filter (fun res => res.error.isNone)
    let classified := successfulExtensionLoadResults.foldl
      (fun (acc : List (List ExtensionBase) × List Diagnostic) res =>
        let r := prepareExtensionObject extOptions res acc.2
        (acc.1 ++ [r.1], r.2))
      ([], diags₁)
    (groupBy classified.1.flatten, classified.2, calls)

/-- The private state of one cache instance: the shared diagnostics array,
the memoized collection map (none while unset; any computed map, even empty,
is a truthy object), and the log of host loadExtension invocations. -/
structure CacheState where
  diagnostics : List Diagnostic
  extensions : Option ExtensionCollectionMap
  loadCalls : List String
deriving DecidableEq, Repr

/-- createExtensionCache: fresh private state. -/
def createExtensionCache : CacheState :=
  ⟨[], none, []⟩

/-- cache.getCompilerExtensions: run discovery on first call and memoize;
later calls return the memoized map without touching the host. -/
def getCompilerExtensions (extOptions : ExtensionsConfig) (host : ExtensionHost)
    (s : CacheState) : ExtensionCollectionMap × CacheState :=
  match s.extensions with
  | some m => (m, s)
  | none =>
    match collectCompilerExtensions extOptions host with
    | (m, ds, calls) => (m, ⟨s.diagnostics ++ ds, some m, s.loadCalls ++ calls⟩)

/-- cache.getExtensionLoadingDiagnostics: force discovery, then return the
accumulated diagnostics. -/
def getExtensionLoadingDiagnostics (extOptions : ExtensionsConfig)
    (host : ExtensionHost) (s : CacheState) : List Diagnostic × CacheState :=
  match getCompilerExtensions extOptions host s with
  | (_, s₂) => (s₂.diagnostics, s₂)

/-- The per-property outcome of the classifier: the accepted descriptor, if
any, and the diagnostics emitted.  This is a restatement of one
classifierReducer step with the aggregate factored out; the agreement is
proved below (reduceStep_classifier) and every use goes through that
lemma. -/
def classifyOutcome (extOptions : ExtensionsConfig) (resName : String)
    (potentialExtension : JSExport) (key : String) :
    Option ExtensionBase × List Diagnostic :=
  if potentialExtension.falsy then
    (none, [])
  else
    match potentialExtension.extensionKindProp with
    | TagProp.strTag annotatedKind =>
      let ext : ExtensionBase :=
        ⟨if key ≠ "default" then resName ++ "[" ++ key ++ "]" else resName,
         extensionArgs extOptions resName, annotatedKind, none, none, none⟩
      if annotatedKind = ExtensionKind.SemanticLint
          ∨ annotatedKind = ExtensionKind.SyntacticLint then
        if potentialExtension.jsTypeof ≠ JSType.functionT then
          (none, [createCompilerDiagnostic
            DiagnosticMessage.extension0ExportedMember1HasExtensionKind2ButWasType3WhenType4WasExpected
            [some resName, some key, extensionKindNamespaceIndex annotatedKind,
             some (typeofString potentialExtension.jsTypeof), some "function"]])
        else
          (some ⟨ext.name, ext.args, ext.kind, ext.profiles,
            some potentialExtension, ext.__extension⟩, [])
      else
        (some ⟨ext.name, ext.args, ext.kind, ext.profiles,
          ext.ctor, some potentialExtension⟩, [])
    | _ => (none, [])

/-- The descriptors a module contributes, per classifyOutcome. -/
def moduleDescriptors (extOptions : ExtensionsConfig) (res : LoadResult) :
    List ExtensionBase :=
  match res.result with
  | some exports =>
    exports.filterMap (fun kv => (classifyOutcome extOptions res.name kv.2 kv.1).1)
  | none => []

/-- The validation diagnostics a module contributes, per classifyOutcome. -/
def moduleDiags (extOptions : ExtensionsConfig) (res : LoadResult) :
    List Diagnostic :=
  match res.result with
  | some exports =>
    (exports.map (fun kv => (classifyOutcome extOptions res.name kv.2 kv.1).2)).flatten
  | none => []

/-- A sample module export value: a constructible syntactic-lint provider. -/
def goodSyntactic : JSExport :=
  JSExport.jsFunction (TagProp.strTag ExtensionKind.SyntacticLint)

/-- A sample module export value: a plain object wrongly tagged as a
syntactic-lint provider, hence not constructible. -/
def badSyntactic : JSExport :=
  JSExport.jsObject (TagProp.strTag ExtensionKind.SyntacticLint)

/-- A sample module export value: a constructible semantic-lint provider. -/
def goodSemantic : JSExport :=
  JSExport.jsFunction (TagProp.strTag ExtensionKind.SemanticLint)

/-- A sample dynamic-load capability serving fixed export objects for the
concrete modules used in the theorems below. -/
def sampleLoader : String → LoadOutcome := fun p =>
  if p = "/mod.js" then LoadOutcome.ok (some [("default", goodSemantic)])
  else if p = "/ext1.js" then LoadOutcome.ok (some [("broken", badSyntactic)])
  else if p = "/mixed.js" then
    LoadOutcome.ok (some [("a", goodSyntactic), ("b", badSyntactic)])
  else if p = "/foo.js" then LoadOutcome.ok (some [("default", goodSemantic)])
  else if p = "/empty.js" then LoadOutcome.ok none
  else if p = "/boom.js" then
    LoadOutcome.thrown ⟨"Error", "kaboom", some "at boom.js:1:1"⟩
  else LoadOutcome.ok none

/-- A sample resolver: module name n resolves to /n.js. -/
def sampleResolver : String → String → Option String :=
  fun n _ => some ("/" ++ n ++ ".js")

/-- A sample host for concrete runs: reports an empty current directory and
uses the sample resolver and loader. -/
def sampleHost : ExtensionHost :=
  ⟨some "", some sampleLoader, sampleResolver⟩

/-- One classifier step agrees with its factored outcome: the aggregate after
the step is the previous aggregate extended by the accepted descriptor, if
any, and the diagnostics grow by exactly the emitted diagnostics. -/
theorem reduceStep_classifier (eo : ExtensionsConfig) (rn : String)
    (agg : List ExtensionBase) (ds : List Diagnostic) (k : String) (v : JSExport) :
    reduceStep (classifierReducer eo rn) (agg, ds) (k, v)
      = (agg ++ ((classifyOutcome eo rn v k).1).toList,
         ds ++ (classifyOutcome eo rn v k).2) := by
  cases v with
  | jsUndefined =>
      simp [reduceStep, classifierReducer, classifyOutcome, JSExport.falsy]
  | jsNull =>
      simp [reduceStep, classifierReducer, classifyOutcome, JSExport.falsy]
  | jsBool b =>
      cases b <;>
        simp [reduceStep, classifierReducer, classifyOutcome, JSExport.falsy,
          JSExport.extensionKindProp]
  | jsNumber n =>
      by_cases h : n = 0 <;>
        simp [reduceStep, classifierReducer, classifyOutcome, JSExport.falsy,
          JSExport.extensionKindProp, h]
  | jsString s =>
      by_cases h : s = "" <;>
        simp [reduceStep, classifierReducer, classifyOutcome, JSExport.falsy,
          JSExport.extensionKindProp, h]
  | jsObject tag =>
      cases tag with
      | absent =>
          simp [reduceStep, classifierReducer, classifyOutcome, JSExport.falsy,
            JSExport.extensionKindProp]
      | nonStringTag t =>
          simp [reduceStep, classifierReducer, classifyOutcome, JSExport.falsy,
            JSExport.extensionKindProp]
      | strTag s =>
          by_cases h : s = ExtensionKind.SemanticLint ∨ s = ExtensionKind.SyntacticLint <;>
            simp [reduceStep, classifierReducer, classifyOutcome, JSExport.falsy,
              JSExport.extensionKindProp, JSExport.jsTypeof, h]
  | jsFunction tag =>
      cases tag with
      | absent =>
          simp [reduceStep, classifierReducer, classifyOutcome, JSExport.falsy,
            JSExport.extensionKindProp]
      | nonStringTag t =>
          simp [reduceStep, classifierReducer, classifyOutcome, JSExport.falsy,
            JSExport.extensionKindProp]
      | strTag s =>
          by_cases h : s = ExtensionKind.SemanticLint ∨ s = ExtensionKind.SyntacticLint <;>
            simp [reduceStep, classifierReducer, classifyOutcome, JSExport.falsy,
              JSExport.extensionKindProp, JSExport.jsTypeof, h]

/-- Running the classifier over an export object appends the accepted
descriptors to the initial aggregate and the emitted diagnostics to the
accumulated list, property by property in enumeration order. -/
theorem reduceProperties_classifier (eo : ExtensionsConfig) (rn : String)
    (m : ModuleExports) (init : List ExtensionBase) (ds : List Diagnostic) :
    reduceProperties m (classifierReducer eo rn) init ds
      = (init ++ m.filterMap (fun kv => (classifyOutcome eo rn kv.2 kv.1).1),
         ds ++ (m.map (fun kv => (classifyOutcome eo rn kv.2 kv.1).2)).flatten) := by
  induction m generalizing init ds with
  | nil => simp [reduceProperties]
  | cons kv rest ih =>
      obtain ⟨k, v⟩ := kv
      have hstep : reduceProperties ((k, v) :: rest) (classifierReducer eo rn) init ds
          = reduceProperties rest (classifierReducer eo rn)
              (init ++ ((classifyOutcome eo rn v k).1).toList)
              (ds ++ (classifyOutcome eo rn v k).2) := by
        show List.foldl (reduceStep (classifierReducer eo rn)) (init, ds) ((k, v) :: rest)
            = _
        rw [List.foldl_cons, reduceStep_classifier]
        rfl
      rw [hstep, ih]
      cases h : (classifyOutcome eo rn v k).1 <;>
        simp [h, List.filterMap_cons, List.append_assoc]

/-- Classifying one successfully loaded module appends its own diagnostics to
the shared list and contributes descriptors that do not depend on the
accumulated diagnostics. -/
theorem prepareExtensionObject_eq (eo : ExtensionsConfig) (res : LoadResult)
    (ds : List Diagnostic) :
    prepareExtensionObject eo res ds
      = (moduleDescriptors eo res, ds ++ moduleDiags eo res) := by
  cases hres : res.result with
  | none => simp [prepareExtensionObject, moduleDescriptors, moduleDiags, hres]
  | some exports =>
      simp [prepareExtensionObject, moduleDescriptors, moduleDiags, hres,
        reduceProperties_classifier]

/-- The load phase, from an arbitrary accumulator, appends one record and the
per-name diagnostics and host invocations for each configured name in
order. -/
theorem runLoadPhase_aux (host : ExtensionHost) (cd : String)
    (names : List String) (a : List LoadResult) (b : List Diagnostic)
    (c : List String) :
    names.foldl
      (fun acc name =>
        let r := loadOneExtension host cd name
        (acc.1 ++ [r.1], acc.2.1 ++ r.2.1, acc.2.2 ++ r.2.2))
      (a, b, c)
      = (a ++ names.map (fun n => (loadOneExtension host cd n).1),
         b ++ (names.map (fun n => (loadOneExtension host cd n).2.1)).flatten,
         c ++ (names.map (fun n => (loadOneExtension host cd n).2.2)).flatten) := by
  induction names generalizing a b c with
  | nil => simp
  | cons n rest ih =>
      rw [List.foldl_cons, ih]
      simp [List.append_assoc]

/-- The load phase characterized pointwise. -/
theorem runLoadPhase_eq (host : ExtensionHost) (cd : String)
    (names : List String) :
    runLoadPhase host cd names
      = (names.map (fun n => (loadOneExtension host cd n).1),
         (names.map (fun n => (loadOneExtension host cd n).2.1)).flatten,
         (names.map (fun n => (loadOneExtension host cd n).2.2)).flatten) := by
  have h := runLoadPhase_aux host cd names [] [] []
  simpa [runLoadPhase] using h

/-- Property assignment followed by lookup of the same key yields the
assigned record. -/
theorem lookup_mapSet_self (m : ProfilesMap) (k : String) (v : ProfileData) :
    (mapSet m k v).lookup k = some v := by
  induction m with
  | nil => simp [mapSet, List.lookup]
  | cons kv rest ih =>
      obtain ⟨k₂, v₂⟩ := kv
      by_cases h : k₂ = k
      · simp [mapSet, h, List.lookup]
      · have h₂ : ¬(k = k₂) := fun e => h e.symm
        have hbeq : (k == k₂) = false := beq_eq_false_iff_ne.mpr h₂
        simp [mapSet, h, List.lookup, hbeq, ih]

/-- Completing right after starting always succeeds, with the record keeping
its start and getting length endTime - start. -/
theorem complete_after_start (ext : ExtensionBase) (task : String)
    (t₁ t₂ : Int) :
    completeExtensionProfile (startExtensionProfile ext task t₁) task t₂
      = Except.ok ⟨ext.name, ext.args, ext.kind,
          some (mapSet (mapSet (match ext.profiles with | none => [] | some ps => ps)
              task ⟨task, t₁, -1⟩) task ⟨task, t₁, t₂ - t₁⟩),
          ext.ctor, ext.__extension⟩ := by
  have hbase : (startExtensionProfile ext task t₁).profiles
      = some (mapSet (match ext.profiles with | none => [] | some ps => ps)
          task ⟨task, t₁, -1⟩) := rfl
  have hlook := lookup_mapSet_self
      (match ext.profiles with | none => [] | some ps => ps) task ⟨task, t₁, -1⟩
  simp only [completeExtensionProfile, hbase, hlook]
  rfl

/-- C8: startExtensionProfile followed by completeExtensionProfile for the
same task leaves a record for that task whose start is unchanged from the
value written by the start call and whose length is nonnegative (time being
monotone between the two calls); and starting a task that already has a
record simply overwrites it with a fresh in-flight record, with no
duplicate-start error. -/
theorem claim8_profile_roundtrip (ext : ExtensionBase) (task : String)
    (t₁ t₂ : Int) (h : t₁ ≤ t₂) :
    (∃ ext₂ ps,
        completeExtensionProfile (startExtensionProfile ext task t₁) task t₂
          = Except.ok ext₂
      ∧ ext₂.profiles = some ps
      ∧ ps.lookup task = some ⟨task, t₁, t₂ - t₁⟩
      ∧ 0 ≤ t₂ - t₁)
    ∧ (∃ ps₂, (startExtensionProfile ext task t₁).profiles = some ps₂
        ∧ ps₂.lookup task = some ⟨task, t₁, -1⟩) := by
  refine ⟨⟨_, _, complete_after_start ext task t₁ t₂, rfl,
      lookup_mapSet_self _ _ _, sub_nonneg.mpr h⟩,
    ⟨_, rfl, lookup_mapSet_self _ _ _⟩⟩

/-- Witness for C8 at a concrete descriptor and clock values. -/
theorem claim8_witness :
    (3 : Int) ≤ 7
    ∧ ((∃ ext₂ ps,
        completeExtensionProfile
            (startExtensionProfile ⟨"e", none, "semantic-lint", none, none, none⟩ "T" 3)
            "T" 7
          = Except.ok ext₂
      ∧ ext₂.profiles = some ps
      ∧ ps.lookup "T" = some ⟨"T", 3, 7 - 3⟩
      ∧ 0 ≤ (7 : Int) - 3)
    ∧ (∃ ps₂,
        (startExtensionProfile ⟨"e", none, "semantic-lint", none, none, none⟩ "T" 3).profiles
          = some ps₂
        ∧ ps₂.lookup "T" = some ⟨"T", 3, -1⟩)) :=
  ⟨by decide,
   claim8_profile_roundtrip ⟨"e", none, "semantic-lint", none, none, none⟩ "T" 3 7 (by decide)⟩

/-- C9: completeExtensionProfile on a descriptor with no profiles mapping, or
with no record for the task, fails the corresponding Debug.assert, modelled
as an Except.error that aborts the calling operation; it never produces a
diagnostic (it does not touch the diagnostics state at all).  Under the
precondition that a start for the task preceded it, neither assertion fires
and it returns normally. -/
theorem claim9_complete_asserts (ext : ExtensionBase) (task : String)
    (t t₁ : Int) :
    (ext.profiles = none →
      completeExtensionProfile ext task t
        = Except.error "Completed profile, but extension has no started profiles.")
    ∧ (∀ ps, ext.profiles = some ps → ps.lookup task = none →
        completeExtensionProfile ext task t
          = Except.error "Completed profile did not have a corresponding start.")
    ∧ (∃ ext₂, completeExtensionProfile (startExtensionProfile ext task t₁) task t
        = Except.ok ext₂) := by
  refine ⟨fun h => by simp [completeExtensionProfile, h],
    fun ps h₁ h₂ => by simp [completeExtensionProfile, h₁, h₂],
    ⟨_, complete_after_start ext task t₁ t⟩⟩

/-- Witness for C9 at a concrete descriptor. -/
theorem claim9_witness :
    (ExtensionBase.profiles ⟨"e", none, "semantic-lint", none, none, none⟩ = none)
    ∧ completeExtensionProfile ⟨"e", none, "semantic-lint", none, none, none⟩ "T" 5
        = Except.error "Completed profile, but extension has no started profiles."
    ∧ (∃ ext₂, completeExtensionProfile
          (startExtensionProfile ⟨"e", none, "semantic-lint", none, none, none⟩ "T" 2) "T" 5
        = Except.ok ext₂) :=
  ⟨rfl,
   (claim9_complete_asserts ⟨"e", none, "semantic-lint", none, none, none⟩ "T" 5 2).1 rfl,
   (claim9_complete_asserts ⟨"e", none, "semantic-lint", none, none, none⟩ "T" 5 2).2.2⟩

/-- A null or undefined export value has outcome: no descriptor, no
diagnostic. -/
theorem classifyOutcome_null_undefined (eo : ExtensionsConfig) (rn : String)
    (v : JSExport) (k : String)
    (hv : v = JSExport.jsNull ∨ v = JSExport.jsUndefined) :
    classifyOutcome eo rn v k = (none, []) := by
  rcases hv with h | h <;> subst h <;> simp [classifyOutcome, JSExport.falsy]

/-- A known-kind export that is not constructible has outcome: no descriptor
and exactly the one validation diagnostic. -/
theorem classifyOutcome_known_bad (eo : ExtensionsConfig) (rn : String)
    (v : JSExport) (k s : String) (hv₁ : v.falsy = false)
    (hv₂ : v.extensionKindProp = TagProp.strTag s)
    (hs : s = ExtensionKind.SemanticLint ∨ s = ExtensionKind.SyntacticLint)
    (hv₃ : v.jsTypeof ≠ JSType.functionT) :
    classifyOutcome eo rn v k
      = (none, [createCompilerDiagnostic
          DiagnosticMessage.extension0ExportedMember1HasExtensionKind2ButWasType3WhenType4WasExpected
          [some rn, some k, extensionKindNamespaceIndex s,
           some (typeofString v.jsTypeof), some "function"]]) := by
  simp [classifyOutcome, hv₁, hv₂, hs, hv₃]

/-- A known-kind constructible export has outcome: one accepted descriptor
carrying it as ctor, and no diagnostic. -/
theorem classifyOutcome_known_good (eo : ExtensionsConfig) (rn : String)
    (v : JSExport) (k s : String) (hv₁ : v.falsy = false)
    (hv₂ : v.extensionKindProp = TagProp.strTag s)
    (hs : s = ExtensionKind.SemanticLint ∨ s = ExtensionKind.SyntacticLint)
    (hv₃ : v.jsTypeof = JSType.functionT) :
    classifyOutcome eo rn v k
      = (some ⟨if k ≠ "default" then rn ++ "[" ++ k ++ "]" else rn,
          extensionArgs eo rn, s, none, some v, none⟩, []) := by
  simp [classifyOutcome, hv₁, hv₂, hs, hv₃]

/-- C2: for every loaded module export object, a property whose value is null
or undefined is skipped silently: the classifier run with the property
present equals the run with the property removed, so no diagnostic is
recorded, no descriptor is produced for it, and all subsequent properties are
classified exactly as they would otherwise be. -/
theorem claim2_null_undefined_skipped (eo : ExtensionsConfig) (rn : String)
    (m₁ m₂ : ModuleExports) (k : String) (v : JSExport)
    (hv : v = JSExport.jsNull ∨ v = JSExport.jsUndefined)
    (init : List ExtensionBase) (ds : List Diagnostic) :
    reduceProperties (m₁ ++ (k, v) :: m₂) (classifierReducer eo rn) init ds
      = reduceProperties (m₁ ++ m₂) (classifierReducer eo rn) init ds := by
  have hout := classifyOutcome_null_undefined eo rn v k hv
  rw [reduceProperties_classifier, reduceProperties_classifier]
  simp [hout]

/-- Witness for C2: a null export before a constructible semantic-lint export
leaves classification identical to the module without it. -/
theorem claim2_witness :
    (JSExport.jsNull = JSExport.jsNull ∨ JSExport.jsNull = JSExport.jsUndefined)
    ∧ reduceProperties [("a", JSExport.jsNull), ("b", goodSemantic)]
        (classifierReducer (ExtensionsConfig.names ["m"]) "m") [] []
      = reduceProperties [("b", goodSemantic)]
        (classifierReducer (ExtensionsConfig.names ["m"]) "m") [] [] :=
  ⟨Or.inl rfl,
   claim2_null_undefined_skipped (ExtensionsConfig.names ["m"]) "m" []
     [("b", goodSemantic)] "a" JSExport.jsNull (Or.inl rfl) [] []⟩

/-- C1: an export of either known kind (syntactic-lint or semantic-lint)
failing the constructibility check yields exactly one diagnostic and is
discarded, classification of the remaining exports of the module continues
unaffected, the descriptors contributed by a module never depend on the
diagnostics accumulated so far (so the other configured modules are
unaffected), and the two-export module with one constructible and one
non-constructible syntactic-lint member yields exactly one accepted
descriptor and exactly one diagnostic in either enumeration order. -/
theorem claim1_bad_export_isolated (eo : ExtensionsConfig) (rn k₁ k₂ key s : String)
    (bad : JSExport)
    (hs : s = ExtensionKind.SemanticLint ∨ s = ExtensionKind.SyntacticLint)
    (hb₁ : bad.falsy = false)
    (hb₂ : bad.extensionKindProp = TagProp.strTag s)
    (hb₃ : bad.jsTypeof ≠ JSType.functionT)
    (m₁ m₂ : ModuleExports) (init : List ExtensionBase) (ds : List Diagnostic) :
    ((reduceProperties (m₁ ++ (key, bad) :: m₂) (classifierReducer eo rn) init ds).1
        = (reduceProperties (m₁ ++ m₂) (classifierReducer eo rn) init ds).1
      ∧ (reduceProperties (m₁ ++ (key, bad) :: m₂) (classifierReducer eo rn) init ds).2.length
        = (reduceProperties (m₁ ++ m₂) (classifierReducer eo rn) init ds).2.length + 1)
    ∧ (∀ res ds₁ ds₂,
        (prepareExtensionObject eo res ds₁).1 = (prepareExtensionObject eo res ds₂).1)
    ∧ (∀ good bad₂ : JSExport, good.falsy = false →
        good.extensionKindProp = TagProp.strTag ExtensionKind.SyntacticLint →
        good.jsTypeof = JSType.functionT →
        bad₂.falsy = false →
        bad₂.extensionKindProp = TagProp.strTag ExtensionKind.SyntacticLint →
        bad₂.jsTypeof ≠ JSType.functionT →
        (reduceProperties [(k₁, good), (k₂, bad₂)] (classifierReducer eo rn) [] ds).1.length = 1
        ∧ (reduceProperties [(k₂, bad₂), (k₁, good)] (classifierReducer eo rn) [] ds).1.length = 1
        ∧ (reduceProperties [(k₁, good), (k₂, bad₂)] (classifierReducer eo rn) [] ds).2.length
            = ds.length + 1
        ∧ (reduceProperties [(k₂, bad₂), (k₁, good)] (classifierReducer eo rn) [] ds).2.length
            = ds.length + 1) := by
  have hskind : ExtensionKind.SyntacticLint = ExtensionKind.SemanticLint
      ∨ ExtensionKind.SyntacticLint = ExtensionKind.SyntacticLint := Or.inr rfl
  have hbad : ∀ k, classifyOutcome eo rn bad k
      = (none, [createCompilerDiagnostic
          DiagnosticMessage.extension0ExportedMember1HasExtensionKind2ButWasType3WhenType4WasExpected
          [some rn, some k, extensionKindNamespaceIndex s,
           some (typeofString bad.jsTypeof), some "function"]]) :=
    fun k => classifyOutcome_known_bad eo rn bad k s hb₁ hb₂ hs hb₃
  refine ⟨?_, ?_, ?_⟩
  · rw [reduceProperties_classifier, reduceProperties_classifier]
    constructor
    · simp [hbad]
    · simp [hbad]
      omega
  · intro res ds₁ ds₂
    rw [prepareExtensionObject_eq, prepareExtensionObject_eq]
  · intro good bad₂ hg₁ hg₂ hg₃ hc₁ hc₂ hc₃
    have hgood := classifyOutcome_known_good eo rn good k₁ ExtensionKind.SyntacticLint hg₁ hg₂ hskind hg₃
    have hbad₂ : ∀ k, classifyOutcome eo rn bad₂ k
        = (none, [createCompilerDiagnostic
            DiagnosticMessage.extension0ExportedMember1HasExtensionKind2ButWasType3WhenType4WasExpected
            [some rn, some k, extensionKindNamespaceIndex ExtensionKind.SyntacticLint,
             some (typeofString bad₂.jsTypeof), some "function"]]) :=
      fun k => classifyOutcome_known_bad eo rn bad₂ k ExtensionKind.SyntacticLint hc₁ hc₂ hskind hc₃
    simp only [reduceProperties_classifier]
    refine ⟨?_, ?_, ?_, ?_⟩ <;> simp [hbad₂, hgood]

/-- Witness for C1: the general hypotheses discharged at a semantic-lint
tagged non-constructible export, and the mixed syntactic-lint module at
concrete keys, in both enumeration orders. -/
theorem claim1_witness :
    (JSExport.jsObject (TagProp.strTag ExtensionKind.SemanticLint)).falsy = false
    ∧ ((reduceProperties [("a", goodSyntactic), ("b", badSyntactic)]
          (classifierReducer (ExtensionsConfig.names ["m"]) "m") [] []).1.length = 1
      ∧ (reduceProperties [("b", badSyntactic), ("a", goodSyntactic)]
          (classifierReducer (ExtensionsConfig.names ["m"]) "m") [] []).1.length = 1
      ∧ (reduceProperties [("a", goodSyntactic), ("b", badSyntactic)]
          (classifierReducer (ExtensionsConfig.names ["m"]) "m") [] []).2.length = 1
      ∧ (reduceProperties [("b", badSyntactic), ("a", goodSyntactic)]
          (classifierReducer (ExtensionsConfig.names ["m"]) "m") [] []).2.length = 1) :=
  ⟨rfl, by
    have h := (claim1_bad_export_isolated (ExtensionsConfig.names ["m"]) "m" "a" "b" "x"
      ExtensionKind.SemanticLint
      (JSExport.jsObject (TagProp.strTag ExtensionKind.SemanticLint))
      (Or.inl rfl) rfl rfl (by decide) [] [] [] []).2.2
      goodSyntactic badSyntactic rfl rfl rfl rfl rfl (by decide)
    simpa using h⟩

/-- Whenever a classifier step returns an aggregate, it is either the
previous aggregate unchanged (a property that is not an extension) or the
previous aggregate extended by one descriptor whose name follows the
module[key] rule and whose args are the configured args for the module. -/
theorem classifierReducer_some (eo : ExtensionsConfig) (rn key : String)
    (agg : List ExtensionBase) (ds : List Diagnostic) (v : JSExport)
    (next : List ExtensionBase) (ds₂ : List Diagnostic)
    (hstep : classifierReducer eo rn (agg, ds) v key = (some next, ds₂)) :
    next = agg
    ∨ ∃ d, next = agg ++ [d]
        ∧ d.name = (if key ≠ "default" then rn ++ "[" ++ key ++ "]" else rn)
        ∧ d.args = extensionArgs eo rn := by
  cases v with
  | jsUndefined => simp [classifierReducer, JSExport.falsy] at hstep
  | jsNull => simp [classifierReducer, JSExport.falsy] at hstep
  | jsBool b =>
      cases b with
      | false => simp [classifierReducer, JSExport.falsy] at hstep
      | true =>
          simp [classifierReducer, JSExport.falsy, JSExport.extensionKindProp] at hstep
          exact Or.inl hstep.1.symm
  | jsNumber n =>
      by_cases h : n = 0
      · simp [classifierReducer, JSExport.falsy, h] at hstep
      · simp [classifierReducer, JSExport.falsy, JSExport.extensionKindProp, h] at hstep
        exact Or.inl hstep.1.symm
  | jsString s =>
      by_cases h : s = ""
      · simp [classifierReducer, JSExport.falsy, h] at hstep
      · simp [classifierReducer, JSExport.falsy, JSExport.extensionKindProp, h] at hstep
        exact Or.inl hstep.1.symm
  | jsObject tag =>
      cases tag with
      | absent =>
          simp [classifierReducer, JSExport.falsy, JSExport.extensionKindProp] at hstep
          exact Or.inl hstep.1.symm
      | nonStringTag t =>
          simp [classifierReducer, JSExport.falsy, JSExport.extensionKindProp] at hstep
          exact Or.inl hstep.1.symm
      | strTag s =>
          by_cases h : s = ExtensionKind.SemanticLint ∨ s = ExtensionKind.SyntacticLint
          · simp [classifierReducer, JSExport.falsy, JSExport.extensionKindProp,
              JSExport.jsTypeof, h] at hstep
          · simp [classifierReducer, JSExport.falsy, JSExport.extensionKindProp,
              JSExport.jsTypeof, h] at hstep
            refine Or.inr ⟨_, hstep.1.symm, ?_, rfl⟩
            simp
  | jsFunction tag =>
      cases tag with
      | absent =>
          simp [classifierReducer, JSExport.falsy, JSExport.extensionKindProp] at hstep
          exact Or.inl hstep.1.symm
      | nonStringTag t =>
          simp [classifierReducer, JSExport.falsy, JSExport.extensionKindProp] at hstep
          exact Or.inl hstep.1.symm
      | strTag s =>
          by_cases h : s = ExtensionKind.SemanticLint ∨ s = ExtensionKind.SyntacticLint
          · simp [classifierReducer, JSExport.falsy, JSExport.extensionKindProp,
              JSExport.jsTypeof, h] at hstep
            refine Or.inr ⟨_, hstep.1.symm, ?_, rfl⟩
            simp
          · simp [classifierReducer, JSExport.falsy, JSExport.extensionKindProp,
              JSExport.jsTypeof, h] at hstep
            refine Or.inr ⟨_, hstep.1.symm, ?_, rfl⟩
            simp

/-- C6: every descriptor accepted by a classifier step is named
module[exportKey], except that the key "default" gives the module name alone;
and concretely a module whose default export is constructible and tagged
semantic-lint yields exactly one descriptor, under group "semantic-lint",
named after the module. -/
theorem claim6_descriptor_naming (eo : ExtensionsConfig) (rn key : String)
    (agg : List ExtensionBase) (ds : List Diagnostic) (v : JSExport) :
    (∀ next ds₂, classifierReducer eo rn (agg, ds) v key = (some next, ds₂) →
      next = agg ∨ ∃ d, next = agg ++ [d]
        ∧ d.name = (if key ≠ "default" then rn ++ "[" ++ key ++ "]" else rn))
    ∧ collectCompilerExtensions (ExtensionsConfig.names ["mod"]) sampleHost
      = ([(ExtensionKind.SemanticLint,
          [⟨"mod", none, ExtensionKind.SemanticLint, none, some goodSemantic, none⟩])],
         [], ["/mod.js"]) := by
  constructor
  · intro next ds₂ hstep
    rcases classifierReducer_some eo rn key agg ds v next ds₂ hstep with h | ⟨d, hd, hname, _⟩
    · exact Or.inl h
    · exact Or.inr ⟨d, hd, hname⟩
  · decide

/-- Witness for C6: the default-keyed constructible semantic-lint export at
concrete inputs. -/
theorem claim6_witness :
    classifierReducer (ExtensionsConfig.names ["m"]) "m" ([], []) goodSemantic "default"
      = (some [⟨"m", none, ExtensionKind.SemanticLint, none, some goodSemantic, none⟩], [])
    ∧ ([⟨"m", none, ExtensionKind.SemanticLint, none, some goodSemantic, none⟩]
          = ([] : List ExtensionBase)
      ∨ ∃ d, [(⟨"m", none, ExtensionKind.SemanticLint, none, some goodSemantic, none⟩ : ExtensionBase)]
            = [] ++ [d]
          ∧ d.name = (if "default" ≠ "default" then "m" ++ "[" ++ "default" ++ "]" else "m")) :=
  ⟨by decide,
   (claim6_descriptor_naming (ExtensionsConfig.names ["m"]) "m" "default" [] [] goodSemantic).1
     [⟨"m", none, ExtensionKind.SemanticLint, none, some goodSemantic, none⟩] [] (by decide)⟩

/-- C7: every descriptor accepted by a classifier step carries as args the
configured args for its module: the mapping value looked up by name when the
extensions setting is a mapping, and undefined when it is a sequence of
names; concretely, configured as a mapping with foo bound to the object
x = 1, the args of the foo descriptor equal that object, and configured as the
sequence containing foo they are undefined. -/
theorem claim7_descriptor_args (eo : ExtensionsConfig) (rn key : String)
    (agg : List ExtensionBase) (ds : List Diagnostic) (v : JSExport) :
    (∀ next ds₂, classifierReducer eo rn (agg, ds) v key = (some next, ds₂) →
      next = agg ∨ ∃ d, next = agg ++ [d] ∧ d.args = extensionArgs eo rn)
    ∧ (∀ l n, extensionArgs (ExtensionsConfig.names l) n = none)
    ∧ (∀ mp n, extensionArgs (ExtensionsConfig.mapping mp) n = mp.lookup n)
    ∧ collectCompilerExtensions (ExtensionsConfig.mapping [("foo", [("x", 1)])]) sampleHost
      = ([(ExtensionKind.SemanticLint,
          [⟨"foo", some [("x", 1)], ExtensionKind.SemanticLint, none, some goodSemantic, none⟩])],
         [], ["/foo.js"])
    ∧ collectCompilerExtensions (ExtensionsConfig.names ["foo"]) sampleHost
      = ([(ExtensionKind.SemanticLint,
          [⟨"foo", none, ExtensionKind.SemanticLint, none, some goodSemantic, none⟩])],
         [], ["/foo.js"]) := by
  refine ⟨?_, fun l n => rfl, fun mp n => rfl, by decide, by decide⟩
  intro next ds₂ hstep
  rcases classifierReducer_some eo rn key agg ds v next ds₂ hstep with h | ⟨d, hd, _, hargs⟩
  · exact Or.inl h
  · exact Or.inr ⟨d, hd, hargs⟩

/-- Witness for C7: the mapping-configured foo module at concrete inputs. -/
theorem claim7_witness :
    classifierReducer (ExtensionsConfig.mapping [("foo", [("x", 1)])]) "foo" ([], [])
        goodSemantic "default"
      = (some [⟨"foo", some [("x", 1)], ExtensionKind.SemanticLint, none, some goodSemantic, none⟩], [])
    ∧ ([⟨"foo", some [("x", 1)], ExtensionKind.SemanticLint, none, some goodSemantic, none⟩]
          = ([] : List ExtensionBase)
      ∨ ∃ d, [(⟨"foo", some [("x", 1)], ExtensionKind.SemanticLint, none, some goodSemantic,
              none⟩ : ExtensionBase)]
            = [] ++ [d]
          ∧ d.args = extensionArgs (ExtensionsConfig.mapping [("foo", [("x", 1)])]) "foo") :=
  ⟨by decide,
   (claim7_descriptor_args (ExtensionsConfig.mapping [("foo", [("x", 1)])]) "foo" "default"
     [] [] goodSemantic).1
     [⟨"foo", some [("x", 1)], ExtensionKind.SemanticLint, none, some goodSemantic, none⟩] []
     (by decide)⟩

/-- A name that resolves and whose load throws produces the failure record,
exactly one loading diagnostic carrying the rendered error text, and one host
invocation. -/
theorem loadOneExtension_thrown (host : ExtensionHost) (cd n p : String)
    (f : String → LoadOutcome) (e : JSError) (h₁ : host.loadExtension = some f)
    (h₂ : host.resolveModule n (combinePaths cd "tsconfig.json") = some p)
    (h₃ : f p = LoadOutcome.thrown e) :
    loadOneExtension host cd n
      = (⟨n, none, some e⟩,
         [createCompilerDiagnostic DiagnosticMessage.extensionLoadingFailedWithError0
           [some (loadErrorText e)]],
         [p]) := by
  simp [loadOneExtension, h₁, h₂, h₃]

/-- A name that resolves and whose load returns a falsy value produces a
record with no error and no result, no diagnostic, and one host
invocation. -/
theorem loadOneExtension_ok_falsy (host : ExtensionHost) (cd n p : String)
    (f : String → LoadOutcome) (h₁ : host.loadExtension = some f)
    (h₂ : host.resolveModule n (combinePaths cd "tsconfig.json") = some p)
    (h₃ : f p = LoadOutcome.ok none) :
    loadOneExtension host cd n = (⟨n, none, none⟩, [], [p]) := by
  simp [loadOneExtension, h₁, h₂, h₃]

/-- A name that resolves makes exactly one host invocation, whatever the load
outcome. -/
theorem loadOneExtension_calls (host : ExtensionHost) (cd n p : String)
    (f : String → LoadOutcome) (h₁ : host.loadExtension = some f)
    (h₂ : host.resolveModule n (combinePaths cd "tsconfig.json") = some p) :
    (loadOneExtension host cd n).2.2 = [p] := by
  cases hfp : f p with
  | ok v => simp [loadOneExtension, h₁, h₂, hfp]
  | thrown e => simp [loadOneExtension, h₁, h₂, hfp]

/-- Flattening a map of singleton lists is the map of their elements. -/
theorem flatten_map_eq_map {α β : Type} (g : α → List β) (r : α → β)
    (l : List α) (h : ∀ n ∈ l, g n = [r n]) : (l.map g).flatten = l.map r := by
  induction l with
  | nil => simp
  | cons a t ih =>
      simp only [List.map_cons, List.flatten_cons, h a (by simp)]
      rw [ih (fun n hn => h n (by simp [hn]))]
      rfl

/-- When the host has the load capability and every configured name resolves,
discovery invokes the loader exactly once per configured name, in configured
order. -/
theorem collectCompilerExtensions_calls (eo : ExtensionsConfig)
    (host : ExtensionHost) (f : String → LoadOutcome) (r : String → String)
    (h₁ : host.loadExtension = some f)
    (h₂ : ∀ n ∈ extensionNames eo,
        host.resolveModule n (combinePaths (currentDirectoryOf host) "tsconfig.json")
          = some (r n)) :
    (collectCompilerExtensions eo host).2.2 = (extensionNames eo).map r := by
  have hc : (collectCompilerExtensions eo host).2.2
      = (runLoadPhase host (currentDirectoryOf host) (extensionNames eo)).2.2 := rfl
  rw [hc, runLoadPhase_eq]
  exact flatten_map_eq_map _ r _
    (fun n hn => loadOneExtension_calls host (currentDirectoryOf host) n (r n) f h₁ (h₂ n hn))

/-- C3: getCompilerExtensions is idempotent: the second call returns the
memoized map and leaves the state untouched, getExtensionLoadingDiagnostics
never changes the state beyond forcing the first discovery, and (when the
host has the load capability and every configured name resolves) the host
loader is invoked exactly once per configured name in total, however many
times the accessors are called. -/
theorem claim3_idempotent_memoized (eo : ExtensionsConfig) (host : ExtensionHost)
    (f : String → LoadOutcome) (r : String → String)
    (h₁ : host.loadExtension = some f)
    (h₂ : ∀ n ∈ extensionNames eo,
        host.resolveModule n (combinePaths (currentDirectoryOf host) "tsconfig.json")
          = some (r n)) :
    (getCompilerExtensions eo host (getCompilerExtensions eo host createExtensionCache).2).1
      = (getCompilerExtensions eo host createExtensionCache).1
    ∧ (getCompilerExtensions eo host (getCompilerExtensions eo host createExtensionCache).2).2
      = (getCompilerExtensions eo host createExtensionCache).2
    ∧ (getExtensionLoadingDiagnostics eo host (getCompilerExtensions eo host createExtensionCache).2).2
      = (getCompilerExtensions eo host createExtensionCache).2
    ∧ (getExtensionLoadingDiagnostics eo host createExtensionCache).2
      = (getCompilerExtensions eo host createExtensionCache).2
    ∧ (getCompilerExtensions eo host createExtensionCache).2.loadCalls
      = (extensionNames eo).map r := by
  have hcalls := collectCompilerExtensions_calls eo host f r h₁ h₂
  rcases hc : collectCompilerExtensions eo host with ⟨m, dsx, calls⟩
  rw [hc] at hcalls
  have hfirst : getCompilerExtensions eo host createExtensionCache
      = (m, ⟨dsx, some m, calls⟩) := by
    simp [getCompilerExtensions, createExtensionCache, hc]
  rw [hfirst]
  exact ⟨rfl, rfl, rfl, by simp [getExtensionLoadingDiagnostics, hfirst], hcalls⟩

/-- Witness for C3 at a concrete configuration and host. -/
theorem claim3_witness :
    sampleHost.loadExtension = some sampleLoader
    ∧ (getCompilerExtensions (ExtensionsConfig.names ["a"]) sampleHost
        createExtensionCache).2.loadCalls = ["/a.js"] :=
  ⟨rfl, by
    rw [(claim3_idempotent_memoized (ExtensionsConfig.names ["a"]) sampleHost sampleLoader
      (fun n => "/" ++ n ++ ".js") rfl (by decide)).2.2.2.2]
    decide⟩

/-- C5: a failure thrown by the host load call for a resolved name is caught
and converted into exactly one diagnostic whose text carries the stringified
error and, when the error has a stack, that stack appended verbatim after
the literal Stack trace separator of the source; the loader and the whole
discovery return normally, so the failure never reaches the caller of
getCompilerExtensions. -/
theorem claim5_load_failure_degrades (host : ExtensionHost) (name p : String)
    (f : String → LoadOutcome) (e : JSError) (h₁ : host.loadExtension = some f)
    (h₂ : host.resolveModule name (combinePaths (currentDirectoryOf host) "tsconfig.json")
        = some p)
    (h₃ : f p = LoadOutcome.thrown e) :
    loadOneExtension host (currentDirectoryOf host) name
      = (⟨name, none, some e⟩,
         [createCompilerDiagnostic DiagnosticMessage.extensionLoadingFailedWithError0
           [some (loadErrorText e)]],
         [p])
    ∧ (∀ st, e.stack = some st →
        loadErrorText e
          = e.toStr ++ "\n                    Stack trace:\n                    " ++ st)
    ∧ (e.stack = none → loadErrorText e = e.toStr)
    ∧ collectCompilerExtensions (ExtensionsConfig.names [name]) host
      = ([], [createCompilerDiagnostic DiagnosticMessage.extensionLoadingFailedWithError0
           [some (loadErrorText e)]],
         [p]) := by
  have hload := loadOneExtension_thrown host (currentDirectoryOf host) name p f e h₁ h₂ h₃
  refine ⟨hload, fun st hst => by simp [loadErrorText, hst],
    fun hst => by simp [loadErrorText, hst], ?_⟩
  simp [collectCompilerExtensions, extensionNames, runLoadPhase_eq, hload, groupBy]

/-- Witness for C5 at a concrete throwing module. -/
theorem claim5_witness :
    sampleLoader "/boom.js" = LoadOutcome.thrown ⟨"Error", "kaboom", some "at boom.js:1:1"⟩
    ∧ collectCompilerExtensions (ExtensionsConfig.names ["boom"]) sampleHost
      = ([], [createCompilerDiagnostic DiagnosticMessage.extensionLoadingFailedWithError0
           [some (loadErrorText ⟨"Error", "kaboom", some "at boom.js:1:1"⟩)]],
         ["/boom.js"]) :=
  ⟨by decide,
   (claim5_load_failure_degrades sampleHost "boom" "/boom.js" sampleLoader
     ⟨"Error", "kaboom", some "at boom.js:1:1"⟩ rfl (by decide) (by decide)).2.2.2⟩

/-- C10: a configured name whose resolution succeeds and whose load returns a
falsy value without throwing is treated as successfully loaded: no diagnostic
is recorded and the module contributes an empty descriptor list. -/
theorem claim10_falsy_result_ok (host : ExtensionHost) (name p : String)
    (f : String → LoadOutcome) (h₁ : host.loadExtension = some f)
    (h₂ : host.resolveModule name (combinePaths (currentDirectoryOf host) "tsconfig.json")
        = some p)
    (h₃ : f p = LoadOutcome.ok none) :
    loadOneExtension host (currentDirectoryOf host) name = (⟨name, none, none⟩, [], [p])
    ∧ (∀ eo ds, prepareExtensionObject eo ⟨name, none, none⟩ ds = ([], ds))
    ∧ collectCompilerExtensions (ExtensionsConfig.names [name]) host = ([], [], [p]) := by
  have hload := loadOneExtension_ok_falsy host (currentDirectoryOf host) name p f h₁ h₂ h₃
  refine ⟨hload, fun eo ds => rfl, ?_⟩
  simp [collectCompilerExtensions, extensionNames, runLoadPhase_eq, hload, groupBy,
    prepareExtensionObject]

/-- Witness for C10 at a concrete module whose load returns undefined. -/
theorem claim10_witness :
    sampleLoader "/empty.js" = LoadOutcome.ok none
    ∧ collectCompilerExtensions (ExtensionsConfig.names ["empty"]) sampleHost
      = ([], [], ["/empty.js"]) :=
  ⟨by decide,
   (claim10_falsy_result_ok sampleHost "empty" "/empty.js" sampleLoader rfl
     (by decide) (by decide)).2.2⟩

/-- C4 (code bug): the diagnostic for a known-kind non-constructible export
carries the module name, the export key, the actual type and the expected
type "function", but its declared-kind argument is undefined, not the kind:
the source indexes the compiled ExtensionKind namespace object by the kind
value, and that object only has the constant names as keys. -/
theorem claim4_kind_slot_undefined :
    collectCompilerExtensions (ExtensionsConfig.names ["ext1"]) sampleHost
      = ([],
         [createCompilerDiagnostic
            DiagnosticMessage.extension0ExportedMember1HasExtensionKind2ButWasType3WhenType4WasExpected
            [some "ext1", some "broken", none, some "object", some "function"]],
         ["/ext1.js"])
    ∧ extensionKindNamespaceIndex ExtensionKind.SyntacticLint = none
    ∧ extensionKindNamespaceIndex ExtensionKind.SemanticLint = none := by
  refine ⟨by decide, by decide, by decide⟩

end ts
